import Mathlib

/-!
Shallow embedding of the tmpltr content-addressable template store
(cmd/make.go, cmd/restore.go, cmd/delete.go, internal/hash, internal/manifest,
internal/compression, internal/storage) together with proofs about the claims
of its specification.

Bytes are modelled as `List Nat` with every element below 256; Go strings are
Lean `String`s; fallible operations return `Option` or `Except String`.
-/

namespace Tmpltr

/- ## SHA-256 (the crypto/sha256 digest used by internal/hash)

A direct executable translation of the FIPS 180-4 SHA-256 algorithm that the
Go standard library implements. 32-bit machine words are `Nat` reduced by
`w32` (that is, `% 2^32`) wherever Go would overflow. -/

/-- Truncate to a 32-bit word, the width of every SHA-256 register. -/
def w32 (n : Nat) : Nat := n % 4294967296

/-- 32-bit right rotation; the argument is assumed already below `2^32`. -/
def rotr32 (n x : Nat) : Nat := w32 ((x >>> n) ||| (x <<< (32 - n)))

/-- 32-bit bitwise complement, written as xor with the all-ones word. -/
def not32 (x : Nat) : Nat := x ^^^ 4294967295

/-- SHA-256 choice function. -/
def ch32 (x y z : Nat) : Nat := (x &&& y) ^^^ (not32 x &&& z)

/-- SHA-256 majority function. -/
def maj32 (x y z : Nat) : Nat := (x &&& y) ^^^ (x &&& z) ^^^ (y &&& z)

/-- SHA-256 big sigma 0. -/
def bsig0 (x : Nat) : Nat := rotr32 2 x ^^^ rotr32 13 x ^^^ rotr32 22 x

/-- SHA-256 big sigma 1. -/
def bsig1 (x : Nat) : Nat := rotr32 6 x ^^^ rotr32 11 x ^^^ rotr32 25 x

/-- SHA-256 small sigma 0. -/
def ssig0 (x : Nat) : Nat := rotr32 7 x ^^^ rotr32 18 x ^^^ (x >>> 3)

/-- SHA-256 small sigma 1. -/
def ssig1 (x : Nat) : Nat := rotr32 17 x ^^^ rotr32 19 x ^^^ (x >>> 10)

/-- The 64 SHA-256 round constants. -/
def sha256K : List Nat :=
  [1116352408, 1899447441, 3049323471, 3921009573,
   961987163, 1508970993, 2453635748, 2870763221,
   3624381080, 310598401, 607225278, 1426881987,
   1925078388, 2162078206, 2614888103, 3248222580,
   3835390401, 4022224774, 264347078, 604807628,
   770255983, 1249150122, 1555081692, 1996064986,
   2554220882, 2821834349, 2952996808, 3210313671,
   3336571891, 3584528711, 113926993, 338241895,
   666307205, 773529912, 1294757372, 1396182291,
   1695183700, 1986661051, 2177026350, 2456956037,
   2730485921, 2820302411, 3259730800, 3345764771,
   3516065817, 3600352804, 4094571909, 275423344,
   430227734, 506948616, 659060556, 883997877,
   958139571, 1322822218, 1537002063, 1747873779,
   1955562222, 2024104815, 2227730452, 2361852424,
   2428436474, 2756734187, 3204031479, 3329325298]

/-- The eight 32-bit working registers of the SHA-256 compression function. -/
structure Hash8 where
  a : Nat
  b : Nat
  c : Nat
  d : Nat
  e : Nat
  f : Nat
  g : Nat
  h : Nat
deriving DecidableEq

/-- The SHA-256 initial hash value. -/
def sha256Init : Hash8 :=
  ⟨1779033703, 3144134277, 1013904242, 2773480762,
   1359893119, 2600822924, 528734635, 1541459225⟩

/-- One SHA-256 round on the working registers. -/
def sha256Round (st : Hash8) (k w : Nat) : Hash8 :=
  let t1 := w32 (st.h + bsig1 st.e + ch32 st.e st.f st.g + k + w)
  let t2 := w32 (bsig0 st.a + maj32 st.a st.b st.c)
  ⟨w32 (t1 + t2), st.a, st.b, st.c, w32 (st.d + t1), st.e, st.f, st.g⟩

/-- Group a byte list into big-endian 32-bit words, four bytes per word. -/
def bytesToWords : List Nat → List Nat
  | b0 :: b1 :: b2 :: b3 :: rest =>
      (b0 * 16777216 + b1 * 65536 + b2 * 256 + b3) :: bytesToWords rest
  | _ => []

/-- Message-schedule extension, working on the reversed schedule so that the
most recent word sits at the head: `n` more words are prepended. -/
def extendSchedule : Nat → List Nat → List Nat
  | 0, rw => rw
  | n + 1, rw =>
      extendSchedule n
        (w32 (ssig1 (rw.getD 1 0) + rw.getD 6 0 + ssig0 (rw.getD 14 0) + rw.getD 15 0) :: rw)

/-- The 64-word message schedule of one 512-bit block. -/
def sha256Schedule (block : List Nat) : List Nat :=
  (extendSchedule 48 (bytesToWords block).reverse).reverse

/-- The SHA-256 compression function applied to one 64-byte block. -/
def sha256Compress (hv : Hash8) (block : List Nat) : Hash8 :=
  let ws := sha256Schedule block
  let st := (sha256K.zip ws).foldl (fun st kw => sha256Round st kw.1 kw.2) hv
  ⟨w32 (hv.a + st.a), w32 (hv.b + st.b), w32 (hv.c + st.c), w32 (hv.d + st.d),
   w32 (hv.e + st.e), w32 (hv.f + st.f), w32 (hv.g + st.g), w32 (hv.h + st.h)⟩

/-- The big-endian 8-byte encoding of the 64-bit message bit length. -/
def lenBytes64 (n : Nat) : List Nat :=
  [n / 2 ^ 56 % 256, n / 2 ^ 48 % 256, n / 2 ^ 40 % 256, n / 2 ^ 32 % 256,
   n / 2 ^ 24 % 256, n / 2 ^ 16 % 256, n / 2 ^ 8 % 256, n % 256]

/-- SHA-256 message padding: a 0x80 byte, zeros to 56 mod 64, then the bit
length in 8 big-endian bytes. -/
def sha256Pad (msg : List Nat) : List Nat :=
  let L := msg.length
  let k := (119 - L % 64) % 64
  msg ++ 128 :: List.replicate k 0 ++ lenBytes64 (8 * L % 2 ^ 64)

/-- Split a byte list into successive 64-byte blocks; the fuel argument is
structural so that the kernel can evaluate the definition, and is always
instantiated with the length of the list. -/
def toBlocksAux : Nat → List Nat → List (List Nat)
  | 0, _ => []
  | _, [] => []
  | fuel + 1, l => l.take 64 :: toBlocksAux fuel (l.drop 64)

/-- Split a byte list into successive 64-byte blocks. -/
def toBlocks (l : List Nat) : List (List Nat) := toBlocksAux l.length l

/-- The big-endian 4-byte serialization of a 32-bit word. -/
def wordBytes (wv : Nat) : List Nat :=
  [wv / 16777216 % 256, wv / 65536 % 256, wv / 256 % 256, wv % 256]

/-- The full SHA-256 digest of a byte sequence, as its 32 digest bytes in the
order the Go crypto/sha256 Sum emits them. -/
def sha256 (msg : List Nat) : List Nat :=
  let hv := (toBlocks (sha256Pad msg)).foldl sha256Compress sha256Init
  wordBytes hv.a ++ wordBytes hv.b ++ wordBytes hv.c ++ wordBytes hv.d ++
  wordBytes hv.e ++ wordBytes hv.f ++ wordBytes hv.g ++ wordBytes hv.h

/- ## internal/hash -/

/-- The lowercase hexadecimal digits, as used by the Go `%x` format verb. -/
def hexChars : List Char := "0123456789abcdef".data

/-- The hexadecimal digit for a nibble. -/
def hexDigit (n : Nat) : Char := hexChars.getD n '0'

/-- The two lowercase hexadecimal characters of one byte, high nibble first,
exactly as the `%x` verb formats each byte of a digest. -/
def byteToHex (b : Nat) : List Char := [hexDigit (b / 16), hexDigit (b % 16)]

/-- The UTF-8 encoding of one character, as Go produces when converting a
string to a byte slice. -/
def utf8Bytes (c : Char) : List Nat :=
  let n := c.toNat
  if n < 128 then [n]
  else if n < 2048 then [192 + n / 64, 128 + n % 64]
  else if n < 65536 then [224 + n / 4096, 128 + n / 64 % 64, 128 + n % 64]
  else [240 + n / 262144, 128 + n / 4096 % 64, 128 + n / 64 % 64, 128 + n % 64]

/-- The UTF-8 bytes of a string, the Go `[]byte(s)` conversion. -/
def strBytes (s : String) : List Nat := s.data.flatMap utf8Bytes

/-- `HashBytes` of internal/hash: the SHA-256 digest of a byte slice rendered
as a 64-character lowercase hexadecimal string via `%x`. -/
def HashBytes (data : List Nat) : String := String.mk ((sha256 data).flatMap byteToHex)

/-- `HashString` of internal/hash: `HashBytes` of the UTF-8 bytes. -/
def HashString (s : String) : String := HashBytes (strBytes s)

/-- `GenerateFileNameHash` of internal/hash: the path-derived placeholder hash
used by ignore-contents mode. -/
def GenerateFileNameHash (filePath : String) : String := HashString filePath

/-- The character test inside the `ValidateHash` loop of internal/hash. -/
def isHexChar (c : Char) : Bool :=
  ('0' ≤ c && c ≤ '9') || ('a' ≤ c && c ≤ 'f') || ('A' ≤ c && c ≤ 'F')

/-- `ValidateHash` of internal/hash: a 64-character string of hexadecimal
characters. Go checks `len(hash)`, a byte count; on the ASCII strings at issue
here that equals the character count used in this model. -/
def ValidateHash (hash : String) : Bool :=
  if hash.length ≠ 64 then false
  else hash.data.all isHexChar

/- ## internal/compression

`CompressData` and `DecompressData` wrap the external compress/gzip codec of
the Go standard library. The codec itself is modelled as the invertible
transform that prepends the two gzip magic bytes `0x1f 0x8b` that every gzip
stream starts with, abstracting the DEFLATE payload transform as the
identity; decoding checks the magic and strips it, failing otherwise, exactly
as `gzip.NewReader` fails on input that does not start with a gzip header.
Writing to an in-memory buffer cannot fail, so the encoder is total; the
decoder can fail because arbitrary stored bytes need not be a gzip
stream. -/

/-- Model of the external gzip encoder: magic header plus payload. -/
def gzipEncode (data : List Nat) : List Nat := 31 :: 139 :: data

/-- Model of the external gzip decoder: checks and strips the magic header. -/
def gzipDecode : List Nat → Option (List Nat)
  | 31 :: 139 :: payload => some payload
  | _ => none

/-- `CompressData` of internal/compression: empty input is returned unchanged,
anything else is gzip-encoded. -/
def CompressData (data : List Nat) : List Nat :=
  if data.length = 0 then data else gzipEncode data

/-- `DecompressData` of internal/compression: empty input is returned
unchanged, anything else must be a gzip stream. -/
def DecompressData (compressedData : List Nat) : Option (List Nat) :=
  if compressedData.length = 0 then some compressedData else gzipDecode compressedData

/-- The extension table of `ShouldCompress`, with the boolean recording
whether the extension marks already-compressed content (`.tar` deliberately
maps to `false` in the source). -/
def compressedExtensions : List (String × Bool) :=
  [(".gz", true), (".zip", true), (".7z", true), (".rar", true), (".bz2", true),
   (".xz", true), (".tar", false), (".jpg", true), (".jpeg", true), (".png", true),
   (".gif", true), (".mp3", true), (".mp4", true), (".avi", true), (".mkv", true),
   (".pdf", true)]

/-- The backward extension scan of `ShouldCompress`: walking from the end of
the path, stop at the first dot (the extension starts there) or at the first
path separator (no extension). The input is the reversed character list and
the accumulator collects the characters already passed, so it ends up in the
original order. -/
def extScan (acc : List Char) : List Char → Option String
  | [] => none
  | c :: rest =>
      if c = '.' then some (String.mk ('.' :: acc))
      else if c = '/' ∨ c = '\\' then none
      else extScan (c :: acc) rest

/-- The extension of a path as `ShouldCompress` extracts it. -/
def extOf (filePath : String) : Option String := extScan [] filePath.data.reverse

/-- `ShouldCompress` of internal/compression: never for inputs below 100
bytes; for known extensions the table decides; otherwise compress anything of
at least 100 bytes. -/
def ShouldCompress (data : List Nat) (filePath : String) : Bool :=
  if data.length < 100 then false
  else
    match extOf filePath with
    | some ext =>
        match compressedExtensions.lookup ext with
        | some isCompressed => !isCompressed
        | none => decide (100 ≤ data.length)
    | none => decide (100 ≤ data.length)

/- ## internal/manifest -/

/-- `FileEntry` of internal/manifest/types.go. Sizes are byte counts (int64 in
Go, never negative for files), modelled as `Nat`. -/
structure FileEntry where
  originalPath : String
  hash : String
  includeContents : Bool
  compressed : Bool
  originalSize : Nat
  storedSize : Nat
deriving DecidableEq

/-- `Manifest` of internal/manifest/types.go. The creation timestamp is an
abstract clock value supplied by the caller (`time.Now` in Go). -/
structure Manifest where
  name : String
  createdAt : Nat
  files : List FileEntry
deriving DecidableEq

/-- `NewManifest`: an empty manifest stamped with the current clock. -/
def NewManifest (name : String) (now : Nat) : Manifest := ⟨name, now, []⟩

/-- `Manifest.AddFile`: append one entry. -/
def Manifest.AddFile (m : Manifest) (originalPath hash : String)
    (includeContents compressed : Bool) (originalSize storedSize : Nat) : Manifest :=
  { m with files := m.files ++ [⟨originalPath, hash, includeContents, compressed, originalSize, storedSize⟩] }

/-- `Manifest.GetFileCount`. -/
def Manifest.GetFileCount (m : Manifest) : Nat := m.files.length

/-- `Manifest.GetFilesWithContents`. -/
def Manifest.GetFilesWithContents (m : Manifest) : List FileEntry :=
  m.files.filter (·.includeContents)

/-- `filepath.IsAbs` of the Go standard library on Unix: the path starts with
a slash (checked on the first character so that the kernel can evaluate it). -/
def isAbs (path : String) : Bool :=
  match path.data with
  | [] => false
  | c :: _ => c = '/'

/-- The per-entry loop of `ValidateManifest`, threading the set of paths
already seen; the checks run in the order of the source. -/
def validateFiles (seen : List String) : List FileEntry → Except String Unit
  | [] => Except.ok ()
  | f :: rest =>
      if f.originalPath = "" then Except.error "file original_path cannot be empty"
      else if f.hash = "" then Except.error "file hash cannot be empty"
      else if seen.contains f.originalPath then Except.error "duplicate file path in manifest"
      else if isAbs f.originalPath then Except.error "file path must be relative"
      else validateFiles (f.originalPath :: seen) rest

/-- `ValidateManifest` of internal/manifest: name and file list must be
non-empty, then every entry passes the per-entry checks. -/
def ValidateManifest (m : Manifest) : Except String Unit :=
  if m.name = "" then Except.error "manifest name cannot be empty"
  else if m.files.length = 0 then Except.error "manifest must contain at least one file"
  else validateFiles [] m.files

/- ## internal/storage, restricted to one template namespace

Every storage call of one ingest or one restore passes the same template
name, so the store is modelled as the blob pool of that single template: an
association list from hash key to stored bytes, appended on write. The
manifest file of the namespace is handled separately by the pipeline. -/

/-- The blob pool of one template namespace. -/
structure Store where
  blobs : List (String × List Nat)
deriving DecidableEq

/-- The empty pool that `EnsureTemplateDir` creates for a fresh template. -/
def emptyStore : Store := ⟨[]⟩

/-- `Storage.FileExists`: a blob under this hash key is present. -/
def Store.FileExists (st : Store) (hash : String) : Bool :=
  (st.blobs.lookup hash).isSome

/-- `Storage.SaveFile`: persist bytes under the hash key. -/
def Store.SaveFile (st : Store) (hash : String) (content : List Nat) : Store :=
  ⟨st.blobs ++ [(hash, content)]⟩

/-- `Storage.LoadFile`: read a blob back, failing when absent. -/
def Store.LoadFile (st : Store) (hash : String) : Option (List Nat) :=
  st.blobs.lookup hash

/-- Modelled from the spec: `Storage.SaveFileWithCompression` is called from
cmd/make.go and exercised by the storage tests, but its definition is not
among the sources. Per spec section 4.5 step 6, the ingest pipeline runs the
compression heuristic and, when it approves, stores the encoded bytes,
otherwise the raw bytes; the returned pair reports whether compression was
applied and the stored byte count. -/
def Store.SaveFileWithCompression (st : Store) (hash originalPath : String)
    (content : List Nat) : Store × Bool × Nat :=
  if ShouldCompress content originalPath then
    let c := CompressData content
    (st.SaveFile hash c, true, c.length)
  else
    (st.SaveFile hash content, false, content.length)

/-- Modelled from the spec: `Storage.LoadFileWithDecompression` is called from
cmd/restore.go and exercised by the storage tests, but its definition is not
among the sources. Per spec section 4.6, restore reads the blob and decodes
it exactly when the stored compressed flag is true. -/
def Store.LoadFileWithDecompression (st : Store) (hash : String)
    (compressed : Bool) : Option (List Nat) :=
  match st.LoadFile hash with
  | none => none
  | some content => if compressed then DecompressData content else some content

/- ## cmd/make.go ingest pipeline

The walk of the source tree is modelled by the list of surviving files in
discovery order: pairs of slash-relative path and content bytes (the ignore
filter and the directory traversal are external collaborators). The original
size read by `os.Stat` equals the length of the content that `os.ReadFile`
returns. -/

/-- The two mode flags of the make command. -/
structure MakeConfig where
  ignoreContents : Bool
  noCompression : Bool
deriving DecidableEq

/-- `processFile` of cmd/make.go: hash the file (content hash in full-content
mode, path hash in ignore-contents mode), write the blob unless its key is
already present, and append the manifest entry. In the deduplication branch
the source sets the stored size to the original size and marks the entry
compressed exactly when global compression is enabled. -/
def processFile (cfg : MakeConfig) (st : Store) (m : Manifest)
    (relativePath : String) (content : List Nat) : Store × Manifest :=
  let originalSize := content.length
  if cfg.ignoreContents then
    let fileHash := GenerateFileNameHash relativePath
    let st1 := if st.FileExists fileHash then st else st.SaveFile fileHash []
    (st1, m.AddFile relativePath fileHash false false originalSize 0)
  else
    let fileHash := HashBytes content
    if !(st.FileExists fileHash) then
      if cfg.noCompression then
        (st.SaveFile fileHash content,
         m.AddFile relativePath fileHash true false originalSize originalSize)
      else
        let r := st.SaveFileWithCompression fileHash relativePath content
        (r.1, m.AddFile relativePath fileHash true r.2.1 originalSize r.2.2)
    else
      (st, m.AddFile relativePath fileHash true (!cfg.noCompression) originalSize originalSize)

/-- The traversal loop of `scanDirectory`, processing the surviving files in
discovery order. -/
def ingestFiles (cfg : MakeConfig) : List (String × List Nat) → Store → Manifest → Store × Manifest
  | [], st, m => (st, m)
  | (p, c) :: rest, st, m =>
      let r := processFile cfg st m p c
      ingestFiles cfg rest r.1 r.2

/- ## cmd/restore.go materialize pipeline

Restoring writes one file per manifest entry in stored order; the result is
the list of written relative paths with their bytes, and any single failure
aborts the whole restore. -/

/-- `restoreFile` of cmd/restore.go: content-bearing entries are read back
through decompression, structure-only entries materialize as empty files. -/
def restoreFile (st : Store) (e : FileEntry) : Option (String × List Nat) :=
  if e.includeContents then
    match st.LoadFileWithDecompression e.hash e.compressed with
    | none => none
    | some content => some (e.originalPath, content)
  else
    some (e.originalPath, [])

/-- The restore loop of `runRestore` over the manifest entries. -/
def restoreFiles (st : Store) : List FileEntry → Option (List (String × List Nat))
  | [] => some []
  | e :: rest =>
      match restoreFile st e with
      | none => none
      | some pc =>
          match restoreFiles st rest with
          | none => none
          | some out => some (pc :: out)

/- ## internal/storage, the template root namespace

For the listing and deletion operations the relevant state is the directory
tree under the storage base directory: its entries, whether each is a
directory, and the state of the manifest file inside each entry. A manifest
file is modelled by what `LoadManifest` would make of it: `none` when no
manifest.json exists at all, `some none` when the file exists but cannot be
read or parsed, and `some (some m)` when it parses to the manifest `m`
(`os.Stat` succeeds in both of the last two states). -/

/-- One entry of the storage base directory. -/
structure RootEntry where
  name : String
  isDir : Bool
  manifest : Option (Option Manifest)
deriving DecidableEq

/-- The storage base directory; `none` means the directory does not exist. -/
structure StorageFS where
  root : Option (List RootEntry)
deriving DecidableEq

/-- `Storage.TemplateExists`: `os.Stat` of the manifest path succeeds, which
needs the root, a directory entry of that name and a manifest file in it. -/
def TemplateExists (fs : StorageFS) (templateName : String) : Bool :=
  match fs.root with
  | none => false
  | some entries => entries.any (fun e => e.name == templateName && e.isDir && e.manifest.isSome)

/-- `Storage.LoadManifest` at the root level: the manifest file of the named
subdirectory, when it exists and parses. -/
def LoadManifestFS (fs : StorageFS) (templateName : String) : Option Manifest :=
  match fs.root with
  | none => none
  | some entries =>
      match entries.find? (fun e => e.name == templateName && e.isDir) with
      | none => none
      | some e =>
          match e.manifest with
          | some (some m) => some m
          | _ => none

/-- `Storage.ListTemplates`: a missing base directory yields the empty list
with no error; otherwise every directory entry whose manifest path passes
`os.Stat` is reported. Only presence of the manifest file is checked; its
contents are never read here. -/
def ListTemplates (fs : StorageFS) : List String :=
  match fs.root with
  | none => []
  | some entries =>
      (entries.filter (fun e => e.isDir && e.manifest.isSome)).map (·.name)

/-- The listing the claim describes, for comparison with `ListTemplates`: only
subdirectories whose manifest file is present and actually parses to a
manifest are reported. -/
def listTemplatesClaimed (fs : StorageFS) : List String :=
  match fs.root with
  | none => []
  | some entries =>
      (entries.filter (fun e =>
        e.isDir &&
        match e.manifest with
        | some (some _) => true
        | _ => false)).map (·.name)

/-- `Storage.DeleteTemplate`: `os.RemoveAll` of the template directory, which
reports no error when the path does not exist; in this in-memory model the
filesystem removal itself cannot fail, so the operation always succeeds. -/
def DeleteTemplate (fs : StorageFS) (templateName : String) : Except String StorageFS :=
  match fs.root with
  | none => Except.ok fs
  | some entries => Except.ok ⟨some (entries.filter (fun e => e.name != templateName))⟩

/-- Whether any on-disk entry (directory or file) of this name exists under
the storage root. -/
def hasNamespace (fs : StorageFS) (templateName : String) : Bool :=
  match fs.root with
  | none => false
  | some entries => entries.any (fun e => e.name == templateName)

/-- `runDelete` of cmd/delete.go with the confirmation prompt forced (the
`--force` path): validate the name, fail when the template does not exist,
load the manifest for display, then delete the namespace. -/
def runDelete (fs : StorageFS) (templateName : String) : Except String StorageFS :=
  if templateName = "" then Except.error "template name cannot be empty"
  else if !(TemplateExists fs templateName) then Except.error "template does not exist"
  else
    match LoadManifestFS fs templateName with
    | none => Except.error "failed to load template information"
    | some _ => DeleteTemplate fs templateName

/- ## Supporting lemmas and sanity anchors -/

set_option maxRecDepth 100000 in
/-- The model reproduces the SHA-256 test vector for the empty input that the
repository test suite records. -/
theorem hashBytes_empty_vector :
    HashBytes [] = "e3b0c44298fc1c149afbf4c8996fb92427ae41e4649b934ca495991b7852b855" := by
  decide

set_option maxRecDepth 100000 in
/-- The model reproduces the SHA-256 test vector for the bytes of
`hello world` that the repository test suite records. -/
theorem hashBytes_hello_world_vector :
    HashBytes [104, 101, 108, 108, 111, 32, 119, 111, 114, 108, 100] =
      "b94d27b9934d3e08a52e52d7da7dabfac484efe37a5380ee9088f7ace2efcde9" := by
  decide

/-- Every SHA-256 digest has exactly 32 bytes. -/
theorem sha256_length (msg : List Nat) : (sha256 msg).length = 32 := by
  simp [sha256, wordBytes]

/-- `hexDigit` lands in the hexadecimal alphabet for every input, in range or
not (out of range hits the `'0'` default). -/
theorem hexDigit_isHex (n : Nat) : isHexChar (hexDigit n) = true := by
  by_cases h : n < 16
  · unfold hexDigit hexChars
    interval_cases n <;> decide
  · have hlen : hexChars.length ≤ n := by simp [hexChars]; omega
    unfold hexDigit
    rw [List.getD_eq_default _ _ hlen]
    decide

/-- Hex rendering doubles the length of a byte list. -/
theorem length_flatMap_byteToHex (l : List Nat) :
    (l.flatMap byteToHex).length = 2 * l.length := by
  induction l with
  | nil => rfl
  | cons a t ih => simp [byteToHex] at ih ⊢; omega

/- ## Claim theorems -/

/-- C3: for every byte sequence, decompressing the compressed form returns the
original bytes, and both codec directions are the identity on empty input. -/
theorem decompress_compress_roundtrip (b : List Nat) :
    DecompressData (CompressData b) = some b ∧
    CompressData [] = [] ∧ DecompressData [] = some [] := by
  refine ⟨?_, rfl, rfl⟩
  cases b with
  | nil => rfl
  | cons a l => simp [CompressData, DecompressData, gzipEncode, gzipDecode]

/-- C9: the hash produced by `HashBytes` always passes `ValidateHash`: it is a
64-character string of hexadecimal characters. -/
theorem validateHash_hashBytes (b : List Nat) : ValidateHash (HashBytes b) = true := by
  have hlen : ((sha256 b).flatMap byteToHex).length = 64 := by
    rw [length_flatMap_byteToHex, sha256_length]
  unfold ValidateHash HashBytes
  have hslen : (String.mk ((sha256 b).flatMap byteToHex)).length = 64 := hlen
  rw [hslen]
  simp only [ne_eq, not_true_eq_false, if_false]
  rw [List.all_eq_true]
  intro c hc
  obtain ⟨x, _, hcx⟩ := List.mem_flatMap.mp hc
  simp only [byteToHex, List.mem_cons, List.not_mem_nil, or_false] at hcx
  rcases hcx with h | h <;> rw [h] <;> exact hexDigit_isHex _

/-- C4: in full-content mode, when the hash of the file is already present in
the store, `processFile` leaves the store untouched and appends an entry built
from the current file alone, marked compressed exactly when global compression
is enabled and with the stored size set to the original size. -/
theorem processFile_dedup_bookkeeping (cfg : MakeConfig) (st : Store) (m : Manifest)
    (relativePath : String) (content : List Nat)
    (hmode : cfg.ignoreContents = false)
    (hdup : st.FileExists (HashBytes content) = true) :
    processFile cfg st m relativePath content =
      (st, m.AddFile relativePath (HashBytes content) true (!cfg.noCompression)
        content.length content.length) := by
  simp [processFile, hmode, hdup]

/-- The byte content used by the concrete scenarios: `hello`. -/
def helloBytes : List Nat := [104, 101, 108, 108, 111]

set_option maxRecDepth 100000 in
/-- Witness for C4 at a concrete store already holding the blob of `hello`. -/
theorem processFile_dedup_bookkeeping_witness :
    processFile ⟨false, false⟩ (emptyStore.SaveFile (HashBytes helloBytes) helloBytes)
      (NewManifest "t" 0) "b.txt" helloBytes =
      ((emptyStore.SaveFile (HashBytes helloBytes) helloBytes),
       (NewManifest "t" 0).AddFile "b.txt" (HashBytes helloBytes) true (!false)
         helloBytes.length helloBytes.length) :=
  processFile_dedup_bookkeeping ⟨false, false⟩
    (emptyStore.SaveFile (HashBytes helloBytes) helloBytes)
    (NewManifest "t" 0) "b.txt" helloBytes rfl (by decide)

/-- The extensions whose table entry is `true`: the known already-compressed
formats (`.tar` is deliberately not among them). -/
def alreadyCompressedExts : List String :=
  [".gz", ".zip", ".7z", ".rar", ".bz2", ".xz", ".jpg", ".jpeg", ".png", ".gif",
   ".mp3", ".mp4", ".avi", ".mkv", ".pdf"]

/-- Lookup in the extension table returns `some true` exactly for the members
of the already-compressed set. -/
theorem lookup_compressedExtensions (ext : String) :
    compressedExtensions.lookup ext = some true ↔ ext ∈ alreadyCompressedExts := by
  simp only [compressedExtensions, alreadyCompressedExts, List.lookup, List.mem_cons,
    List.not_mem_nil, or_false]
  repeat' split
  all_goals simp_all [beq_iff_eq]

/-- C7: `ShouldCompress` returns false exactly when the input is below the
100-byte threshold or the extension of the path is in the known
already-compressed set. -/
theorem shouldCompress_false_iff (data : List Nat) (path : String) :
    ShouldCompress data path = false ↔
      (data.length < 100 ∨ ∃ ext, extOf path = some ext ∧ ext ∈ alreadyCompressedExts) := by
  unfold ShouldCompress
  by_cases hlen : data.length < 100
  · simp [hlen]
  · have h100 : 100 ≤ data.length := Nat.not_lt.mp hlen
    cases hext : extOf path with
    | none => simp [hlen, hext, h100]
    | some ext =>
        cases hlook : compressedExtensions.lookup ext with
        | none =>
            have hni : ext ∉ alreadyCompressedExts := fun hm => by
              rw [(lookup_compressedExtensions ext).mpr hm] at hlook
              cases hlook
            simp [hlen, hext, h100, hlook, hni]
        | some flag =>
            cases flag with
            | false =>
                have hni : ext ∉ alreadyCompressedExts := fun hm => by
                  rw [(lookup_compressedExtensions ext).mpr hm] at hlook
                  cases hlook
                simp [hlen, hext, hlook, hni]
            | true =>
                have hi : ext ∈ alreadyCompressedExts :=
                  (lookup_compressedExtensions ext).mp hlook
                simp [hlen, hext, hlook, hi]

/-- The structure-only invariant on one manifest entry: a structure-only
entry is uncompressed and has stored size zero. -/
def StructOnlyOK (e : FileEntry) : Prop :=
  e.includeContents = false → e.compressed = false ∧ e.storedSize = 0

/-- `processFile` preserves the structure-only invariant on every manifest
entry: the one entry it appends satisfies it in every branch. -/
theorem processFile_structOnly (cfg : MakeConfig) (st : Store) (m : Manifest)
    (p : String) (c : List Nat)
    (hm : ∀ e ∈ m.files, StructOnlyOK e) :
    ∀ e ∈ (processFile cfg st m p c).2.files, StructOnlyOK e := by
  intro e he
  unfold processFile at he
  by_cases h1 : cfg.ignoreContents
  all_goals simp only [h1, if_true, if_false, Bool.false_eq_true, Manifest.AddFile] at he
  · rcases List.mem_append.mp he with h | h
    · exact hm e h
    · simp only [List.mem_cons, List.not_mem_nil, or_false] at h
      subst h
      intro
      exact ⟨rfl, rfl⟩
  · split at he <;> [skip; skip] <;> try split at he
    all_goals
      rcases List.mem_append.mp he with h | h
    all_goals
      first
      | exact hm e h
      | · simp only [List.mem_cons, List.not_mem_nil, or_false] at h
          subst h
          intro hfalse
          cases hfalse

/-- C6: every entry the ingest pipeline appends satisfies the invariant that a
structure-only entry (include_contents false) is uncompressed with stored
size zero. -/
theorem ingest_structure_only_invariant (cfg : MakeConfig)
    (ts : List (String × List Nat)) (name : String) (now : Nat) :
    ∀ e ∈ (ingestFiles cfg ts emptyStore (NewManifest name now)).2.files,
      e.includeContents = false → e.compressed = false ∧ e.storedSize = 0 := by
  have main : ∀ (l : List (String × List Nat)) (st : Store) (m : Manifest),
      (∀ e ∈ m.files, StructOnlyOK e) →
      ∀ e ∈ (ingestFiles cfg l st m).2.files, StructOnlyOK e := by
    intro l
    induction l with
    | nil => intro st m hm; exact hm
    | cons pc rest ih =>
        intro st m hm
        exact ih _ _ (processFile_structOnly cfg st m pc.1 pc.2 hm)
  exact main ts emptyStore (NewManifest name now) (by simp [NewManifest])

set_option maxRecDepth 100000 in
/-- Witness for C6 at a one-file structure-only ingest. -/
theorem ingest_structure_only_invariant_witness :
    (⟨"a.txt", GenerateFileNameHash "a.txt", false, false, helloBytes.length, 0⟩ : FileEntry).compressed = false ∧
    (⟨"a.txt", GenerateFileNameHash "a.txt", false, false, helloBytes.length, 0⟩ : FileEntry).storedSize = 0 :=
  ingest_structure_only_invariant ⟨true, false⟩ [("a.txt", helloBytes)] "t" 0
    ⟨"a.txt", GenerateFileNameHash "a.txt", false, false, helloBytes.length, 0⟩
    (by decide) rfl

/-- The per-entry checks of `ValidateManifest` on one entry, apart from
duplicate detection: non-empty path, non-empty hash, relative path. -/
def EntryFieldsOK (e : FileEntry) : Prop :=
  e.originalPath ≠ "" ∧ e.hash ≠ "" ∧ isAbs e.originalPath = false

/-- Characterization of the `ValidateManifest` loop: it accepts exactly when
every entry passes the field checks, no path repeats, and no path collides
with the already-seen set it threads. -/
theorem validateFiles_ok_iff (fs : List FileEntry) : ∀ seen : List String,
    validateFiles seen fs = Except.ok () ↔
      ((∀ e ∈ fs, EntryFieldsOK e ∧ e.originalPath ∉ seen) ∧
       (fs.map (fun e => e.originalPath)).Nodup) := by
  induction fs with
  | nil => intro seen; simp [validateFiles]
  | cons f rest ih =>
      intro seen
      unfold validateFiles
      by_cases h1 : f.originalPath = ""
      · simp [h1, EntryFieldsOK]
      · by_cases h2 : f.hash = ""
        · simp [h1, h2, EntryFieldsOK]
        · by_cases h3 : seen.contains f.originalPath
          · have hmem : f.originalPath ∈ seen := by
              simpa using h3
            simp only [if_neg h1, if_neg h2, h3, if_true]
            constructor
            · intro h; cases h
            · rintro ⟨hall, -⟩
              exact absurd hmem (hall f (List.mem_cons_self f rest)).2
          · by_cases h4 : isAbs f.originalPath
            · simp only [if_neg h1, if_neg h2, h3, if_false, h4, if_true]
              constructor
              · intro h; cases h
              · rintro ⟨hall, -⟩
                exact absurd h4 (by simpa using (hall f (List.mem_cons_self f rest)).1.2.2)
            · have hnmem : f.originalPath ∉ seen := by
                intro hmem
                exact h3 (by simpa using hmem)
              rw [if_neg h1, if_neg h2, if_neg (by simpa using h3), if_neg h4,
                ih (f.originalPath :: seen)]
              constructor
              · rintro ⟨hall, hnd⟩
                refine ⟨?_, ?_⟩
                · intro e he
                  rcases List.mem_cons.mp he with rfl | he
                  · exact ⟨⟨h1, h2, by simpa using h4⟩, hnmem⟩
                  · obtain ⟨hf, hs⟩ := hall e he
                    exact ⟨hf, fun hm => hs (List.mem_cons_of_mem _ hm)⟩
                · rw [List.map_cons, List.nodup_cons]
                  refine ⟨?_, hnd⟩
                  intro hmap
                  obtain ⟨e, he, hpe⟩ := List.mem_map.mp hmap
                  exact (hall e he).2 (by rw [hpe]; exact List.mem_cons_self _ _)
              · rintro ⟨hall, hnd⟩
                rw [List.map_cons, List.nodup_cons] at hnd
                refine ⟨?_, hnd.2⟩
                intro e he
                obtain ⟨hf, hs⟩ := hall e (List.mem_cons_of_mem f he)
                refine ⟨hf, ?_⟩
                intro hm
                rcases List.mem_cons.mp hm with hq | hq
                · exact hnd.1 (List.mem_map.mpr ⟨e, he, hq⟩)
                · exact hs hq

/-- C5 (amended): `ValidateManifest` accepts exactly the manifests with a
non-empty name, a non-empty file list, entries with non-empty paths,
non-empty hashes (on every entry, content-bearing or not) and relative
paths, and no duplicate path. -/
theorem validateManifest_ok_iff (m : Manifest) :
    ValidateManifest m = Except.ok () ↔
      (m.name ≠ "" ∧ m.files ≠ [] ∧
       (∀ e ∈ m.files, e.originalPath ≠ "" ∧ e.hash ≠ "" ∧ isAbs e.originalPath = false) ∧
       (m.files.map (fun e => e.originalPath)).Nodup) := by
  unfold ValidateManifest
  by_cases h1 : m.name = ""
  · simp [h1]
  · by_cases h2 : m.files.length = 0
    · have : m.files = [] := List.length_eq_zero.mp h2
      simp [h1, h2, this]
    · have hne : m.files ≠ [] := fun h => h2 (by rw [h]; rfl)
      rw [if_neg h1, if_neg h2, validateFiles_ok_iff]
      simp only [List.not_mem_nil, not_false_eq_true, and_true, EntryFieldsOK]
      exact ⟨fun ⟨a, b⟩ => ⟨h1, hne, a, b⟩, fun ⟨_, _, a, b⟩ => ⟨a, b⟩⟩

/-- A manifest whose single entry is structure-only with an empty hash: the
claim predicts acceptance, the source rejects it. -/
def cexManifest : Manifest := ⟨"t", 0, [⟨"a.txt", "", false, false, 0, 0⟩]⟩

/-- C5 counterexample: `ValidateManifest` errors on `cexManifest` although
its name is non-empty, its file list is non-empty, every path is non-empty,
relative and unique, and every content-bearing entry has a non-empty hash
(the failing entry is not content-bearing). -/
theorem validateManifest_claim_cex :
    ValidateManifest cexManifest = Except.error "file hash cannot be empty" ∧
    cexManifest.name ≠ "" ∧ cexManifest.files ≠ [] ∧
    (∀ e ∈ cexManifest.files,
      e.originalPath ≠ "" ∧ isAbs e.originalPath = false ∧
      (e.includeContents = true → e.hash ≠ "")) ∧
    (cexManifest.files.map (fun e => e.originalPath)).Nodup :=
  ⟨rfl, by decide, by decide, by decide, by decide⟩

/-- A storage root holding one subdirectory `t1` whose manifest file exists
but does not parse. -/
def cexFS : StorageFS := ⟨some [⟨"t1", true, some none⟩]⟩

/-- C8 counterexample: `ListTemplates` reports `t1` although its manifest is
not valid or readable (it cannot be loaded), so the listing is not restricted
to subdirectories with a valid, readable manifest. -/
theorem listTemplates_lists_invalid_manifest :
    ListTemplates cexFS = ["t1"] ∧ listTemplatesClaimed cexFS = [] ∧
    LoadManifestFS cexFS "t1" = none :=
  ⟨rfl, rfl, rfl⟩

/-- C8 (amended): a missing storage root lists as empty rather than failing,
and otherwise a name is listed exactly when some root entry of that name is a
directory whose manifest file is present — presence is all that is checked,
the manifest contents are never read. -/
theorem listTemplates_characterization (fs : StorageFS) (n : String) :
    (fs.root = none → ListTemplates fs = []) ∧
    (∀ entries, fs.root = some entries →
      (n ∈ ListTemplates fs ↔
        ∃ e ∈ entries, e.isDir = true ∧ e.manifest.isSome = true ∧ e.name = n)) := by
  constructor
  · intro h
    simp [ListTemplates, h]
  · intro entries h
    simp only [ListTemplates, h, List.mem_map, List.mem_filter]
    constructor
    · rintro ⟨e, ⟨he, hf⟩, hn⟩
      simp only [Bool.and_eq_true] at hf
      exact ⟨e, he, hf.1, hf.2, hn⟩
    · rintro ⟨e, he, h1, h2, h3⟩
      exact ⟨e, ⟨he, by simp [h1, h2]⟩, h3⟩

/-- Witness for C8 on a root with a stat-only manifest, a plain file and a
manifest-free directory. -/
theorem listTemplates_characterization_witness :
    "t1" ∈ ListTemplates ⟨some [⟨"t1", true, some none⟩, ⟨"x", false, some (some ⟨"x", 0, []⟩)⟩, ⟨"junk", true, none⟩]⟩ :=
  ((listTemplates_characterization
      ⟨some [⟨"t1", true, some none⟩, ⟨"x", false, some (some ⟨"x", 0, []⟩)⟩, ⟨"junk", true, none⟩]⟩
      "t1").2
    [⟨"t1", true, some none⟩, ⟨"x", false, some (some ⟨"x", 0, []⟩)⟩, ⟨"junk", true, none⟩]
    rfl).mpr (by decide)

/-- C10: deleting a template whose namespace is absent succeeds and leaves the
store untouched, storage-level deletion is idempotent, and the not-found
failure for deletion arises only from the existence check of the delete
command, not from the storage layer. -/
theorem deleteTemplate_missing_ok (fs : StorageFS) (templateName : String) :
    (hasNamespace fs templateName = false → DeleteTemplate fs templateName = Except.ok fs) ∧
    (∀ fs2, DeleteTemplate fs templateName = Except.ok fs2 →
      DeleteTemplate fs2 templateName = Except.ok fs2) ∧
    (templateName ≠ "" → TemplateExists fs templateName = false →
      runDelete fs templateName = Except.error "template does not exist") := by
  obtain ⟨root⟩ := fs
  refine ⟨?_, ?_, ?_⟩
  · intro habs
    cases root with
    | none => rfl
    | some entries =>
        simp only [hasNamespace] at habs
        have hall : ∀ e ∈ entries, (e.name == templateName) = false := by
          intro e he
          by_contra hb
          rw [Bool.not_eq_false] at hb
          have hany : entries.any (fun e => e.name == templateName) = true :=
            List.any_eq_true.mpr ⟨e, he, hb⟩
          rw [habs] at hany
          cases hany
        have hfil : entries.filter (fun e => e.name != templateName) = entries := by
          apply List.filter_eq_self.mpr
          intro e he
          simp [bne, hall e he]
        simp [DeleteTemplate, hfil]
  · intro fs2 h2
    cases root with
    | none =>
        simp only [DeleteTemplate, Except.ok.injEq] at h2
        subst h2
        rfl
    | some entries =>
        simp only [DeleteTemplate, Except.ok.injEq] at h2
        subst h2
        simp only [DeleteTemplate, Except.ok.injEq, StorageFS.mk.injEq, Option.some.injEq]
        apply List.filter_eq_self.mpr
        intro e he
        exact (List.mem_filter.mp he).2
  · intro hname hnex
    simp [runDelete, hname, hnex]

set_option maxRecDepth 100000 in
/-- Witness for C10 on a root holding only an unrelated template. -/
theorem deleteTemplate_missing_ok_witness :
    DeleteTemplate ⟨some [⟨"other", true, some (some ⟨"other", 0, []⟩)⟩]⟩ "t" =
      Except.ok ⟨some [⟨"other", true, some (some ⟨"other", 0, []⟩)⟩]⟩ ∧
    runDelete ⟨some [⟨"other", true, some (some ⟨"other", 0, []⟩)⟩]⟩ "t" =
      Except.error "template does not exist" :=
  ⟨(deleteTemplate_missing_ok ⟨some [⟨"other", true, some (some ⟨"other", 0, []⟩)⟩]⟩ "t").1 (by decide),
   (deleteTemplate_missing_ok ⟨some [⟨"other", true, some (some ⟨"other", 0, []⟩)⟩]⟩ "t").2.2
     (by decide) (by decide)⟩

/- ## Deduplication: blob counting in the store -/

/-- Number of blobs stored under one hash key. -/
def blobCount (st : Store) (h : String) : Nat :=
  (st.blobs.filter (fun p => p.1 == h)).length

/-- A lookup succeeds exactly when the key counts at least one blob. -/
theorem lookup_isSome_iff_count (h : String) (l : List (String × List Nat)) :
    (l.lookup h).isSome = true ↔ (l.filter (fun p => p.1 == h)).length ≠ 0 := by
  induction l with
  | nil => simp
  | cons p t ih =>
      obtain ⟨k, v⟩ := p
      by_cases hk : h = k
      · subst hk
        simp [List.lookup]
      · have h1 : (h == k) = false := beq_eq_false_iff_ne.mpr hk
        have h2 : (k == h) = false := beq_eq_false_iff_ne.mpr (Ne.symm hk)
        simp [List.lookup, h1, h2, ih]

/-- `FileExists` is false exactly when no blob is stored under the key. -/
theorem fileExists_false_iff (st : Store) (h : String) :
    st.FileExists h = false ↔ blobCount st h = 0 := by
  have := lookup_isSome_iff_count h st.blobs
  unfold Store.FileExists blobCount
  constructor
  · intro hf
    by_contra hne
    rw [this.mpr hne] at hf
    cases hf
  · intro h0
    by_contra hne
    rw [Bool.not_eq_false] at hne
    exact this.mp hne h0

/-- Writing a blob adds one to the count of its own key. -/
theorem blobCount_save_same (st : Store) (h : String) (c : List Nat) :
    blobCount (st.SaveFile h c) h = blobCount st h + 1 := by
  simp [blobCount, Store.SaveFile, List.filter_append]

/-- Writing a blob leaves the count of every other key unchanged. -/
theorem blobCount_save_other (st : Store) (h k : String) (c : List Nat)
    (hne : k ≠ h) : blobCount (st.SaveFile k c) h = blobCount st h := by
  simp [blobCount, Store.SaveFile, List.filter_append, beq_eq_false_iff_ne.mpr hne]

/-- Writing a blob never lowers any count. -/
theorem blobCount_save_le (st : Store) (h k : String) (c : List Nat) :
    blobCount st h ≤ blobCount (st.SaveFile k c) h := by
  by_cases hk : k = h
  · subst hk
    rw [blobCount_save_same]
    omega
  · rw [blobCount_save_other st h k c hk]

/-- The deduplication invariant: at most one blob per hash key. -/
def StoreDedup (st : Store) : Prop := ∀ h, blobCount st h ≤ 1

/-- A write guarded by the exists-check preserves the invariant. -/
theorem storeDedup_save (st : Store) (k : String) (c : List Nat)
    (hex : st.FileExists k = false) (hs : StoreDedup st) :
    StoreDedup (st.SaveFile k c) := by
  intro h
  by_cases hk : h = k
  · subst hk
    rw [blobCount_save_same, (fileExists_false_iff st h).mp hex]
  · rw [blobCount_save_other st h k c (fun he => hk he.symm)]
    exact hs h

/-- `processFile` preserves the deduplication invariant: every write it makes
is guarded by the exists-check. -/
theorem processFile_storeDedup (cfg : MakeConfig) (st : Store) (m : Manifest)
    (p : String) (c : List Nat) (hs : StoreDedup st) :
    StoreDedup (processFile cfg st m p c).1 := by
  unfold processFile Store.SaveFileWithCompression
  by_cases h1 : cfg.ignoreContents
  · simp only [h1, if_true]
    by_cases h2 : st.FileExists (GenerateFileNameHash p)
    · simpa [h2] using hs
    · simp only [Bool.not_eq_true] at h2
      simpa [h2] using storeDedup_save st _ _ h2 hs
  · simp only [h1, if_false, Bool.false_eq_true]
    by_cases h2 : st.FileExists (HashBytes c)
    · simp [h2]
      exact hs
    · simp only [Bool.not_eq_true] at h2
      by_cases h3 : cfg.noCompression
      · simpa [h2, h3] using storeDedup_save st _ _ h2 hs
      · by_cases h4 : ShouldCompress c p
        · simpa [h2, h3, h4] using storeDedup_save st _ _ h2 hs
        · simpa [h2, h3, h4] using storeDedup_save st _ _ h2 hs

/-- `processFile` never lowers any blob count. -/
theorem processFile_count_mono (cfg : MakeConfig) (st : Store) (m : Manifest)
    (p : String) (c : List Nat) (h : String) :
    blobCount st h ≤ blobCount (processFile cfg st m p c).1 h := by
  unfold processFile Store.SaveFileWithCompression
  by_cases h1 : cfg.ignoreContents
  · simp only [h1, if_true]
    by_cases h2 : st.FileExists (GenerateFileNameHash p)
    · simp [h2]
    · simp only [Bool.not_eq_true] at h2
      simpa [h2] using blobCount_save_le st h _ _
  · simp only [h1, if_false, Bool.false_eq_true]
    by_cases h2 : st.FileExists (HashBytes c)
    · simp [h2]
    · simp only [Bool.not_eq_true] at h2
      by_cases h3 : cfg.noCompression
      · simpa [h2, h3] using blobCount_save_le st h _ _
      · by_cases h4 : ShouldCompress c p
        · simpa [h2, h3, h4] using blobCount_save_le st h _ _
        · simpa [h2, h3, h4] using blobCount_save_le st h _ _

/-- After `processFile` on a file in full-content mode, its content hash has
at least one blob: either it was already there or it was just written. -/
theorem processFile_count_hit (cfg : MakeConfig) (st : Store) (m : Manifest)
    (p : String) (c : List Nat) (hmode : cfg.ignoreContents = false) :
    blobCount (processFile cfg st m p c).1 (HashBytes c) ≠ 0 := by
  unfold processFile Store.SaveFileWithCompression
  by_cases h2 : st.FileExists (HashBytes c)
  · simp only [hmode, h2, Bool.false_eq_true, if_false, Bool.not_true]
    intro h0
    rw [← fileExists_false_iff] at h0
    rw [h0] at h2
    cases h2
  · simp only [Bool.not_eq_true] at h2
    by_cases h3 : cfg.noCompression
    · simp [hmode, h2, h3, blobCount_save_same]
    · by_cases h4 : ShouldCompress c p
      · simp [hmode, h2, h3, h4, blobCount_save_same]
      · simp [hmode, h2, h3, h4, blobCount_save_same]

/-- The ingest loop preserves the deduplication invariant. -/
theorem ingest_storeDedup (cfg : MakeConfig) :
    ∀ (ts : List (String × List Nat)) (st : Store) (m : Manifest),
      StoreDedup st → StoreDedup (ingestFiles cfg ts st m).1 := by
  intro ts
  induction ts with
  | nil => intro st m hs; exact hs
  | cons pc rest ih =>
      intro st m hs
      exact ih _ _ (processFile_storeDedup cfg st m pc.1 pc.2 hs)

/-- The ingest loop never lowers any blob count. -/
theorem ingest_count_mono (cfg : MakeConfig) :
    ∀ (ts : List (String × List Nat)) (st : Store) (m : Manifest) (h : String),
      blobCount st h ≤ blobCount (ingestFiles cfg ts st m).1 h := by
  intro ts
  induction ts with
  | nil => intro st m h; exact Nat.le_refl _
  | cons pc rest ih =>
      intro st m h
      exact Nat.le_trans (processFile_count_mono cfg st m pc.1 pc.2 h) (ih _ _ h)

/-- After a full-content ingest, the content hash of every ingested file has
at least one blob. -/
theorem ingest_count_hit (cfg : MakeConfig) (hmode : cfg.ignoreContents = false) :
    ∀ (ts : List (String × List Nat)) (st : Store) (m : Manifest) (p : String) (c : List Nat),
      (p, c) ∈ ts → blobCount (ingestFiles cfg ts st m).1 (HashBytes c) ≠ 0 := by
  intro ts
  induction ts with
  | nil => intro st m p c hm; cases hm
  | cons pc rest ih =>
      intro st m p c hm
      rcases List.mem_cons.mp hm with rfl | hm
      · intro h0
        have h1 := processFile_count_hit cfg st m p c hmode
        have h2 := ingest_count_mono cfg rest (processFile cfg st m p c).1
          (processFile cfg st m p c).2 (HashBytes c)
        simp only [ingestFiles] at h0
        omega
      · exact ih _ _ p c hm

/-- In full-content mode, `processFile` appends exactly one entry, carrying
the relative path and the content hash. -/
theorem processFile_files_map (cfg : MakeConfig) (st : Store) (m : Manifest)
    (p : String) (c : List Nat) (hmode : cfg.ignoreContents = false) :
    (processFile cfg st m p c).2.files.map (fun e => (e.originalPath, e.hash)) =
      m.files.map (fun e => (e.originalPath, e.hash)) ++ [(p, HashBytes c)] := by
  unfold processFile Store.SaveFileWithCompression
  by_cases h2 : st.FileExists (HashBytes c)
  · simp [hmode, h2, Manifest.AddFile]
  · simp only [Bool.not_eq_true] at h2
    by_cases h3 : cfg.noCompression
    · simp [hmode, h2, h3, Manifest.AddFile]
    · by_cases h4 : ShouldCompress c p
      · simp [hmode, h2, h3, h4, Manifest.AddFile]
      · simp [hmode, h2, h3, h4, Manifest.AddFile]

/-- In full-content mode the manifest produced by the ingest loop records, in
discovery order, exactly the relative paths with their content hashes. -/
theorem ingest_files_map (cfg : MakeConfig) (hmode : cfg.ignoreContents = false) :
    ∀ (ts : List (String × List Nat)) (st : Store) (m : Manifest),
      (ingestFiles cfg ts st m).2.files.map (fun e => (e.originalPath, e.hash)) =
        m.files.map (fun e => (e.originalPath, e.hash)) ++
          ts.map (fun pc => (pc.1, HashBytes pc.2)) := by
  intro ts
  induction ts with
  | nil => intro st m; simp [ingestFiles]
  | cons pc rest ih =>
      intro st m
      show (ingestFiles cfg rest _ _).2.files.map _ = _
      rw [ih, processFile_files_map cfg st m pc.1 pc.2 hmode]
      simp

/-- C2: a full-content ingest of a tree containing two files with the same
content stores exactly one blob under that content hash, and the manifest
entries of both files record that same hash. -/
theorem ingest_dedup_single_blob (cfg : MakeConfig) (name : String) (now : Nat)
    (l1 l2 l3 : List (String × List Nat)) (p1 p2 : String) (c : List Nat)
    (hmode : cfg.ignoreContents = false) :
    blobCount (ingestFiles cfg (l1 ++ (p1, c) :: l2 ++ (p2, c) :: l3)
        emptyStore (NewManifest name now)).1 (HashBytes c) = 1 ∧
    (ingestFiles cfg (l1 ++ (p1, c) :: l2 ++ (p2, c) :: l3)
        emptyStore (NewManifest name now)).2.files.map (fun e => (e.originalPath, e.hash)) =
      l1.map (fun pc => (pc.1, HashBytes pc.2)) ++ (p1, HashBytes c) ::
      (l2.map (fun pc => (pc.1, HashBytes pc.2)) ++ (p2, HashBytes c) ::
        l3.map (fun pc => (pc.1, HashBytes pc.2))) := by
  constructor
  · have hle := ingest_storeDedup cfg (l1 ++ (p1, c) :: l2 ++ (p2, c) :: l3)
      emptyStore (NewManifest name now)
      (fun h => by simp [blobCount, emptyStore]) (HashBytes c)
    have hne := ingest_count_hit cfg hmode (l1 ++ (p1, c) :: l2 ++ (p2, c) :: l3)
      emptyStore (NewManifest name now) p1 c (by simp)
    omega
  · rw [ingest_files_map cfg hmode]
    simp [NewManifest]

/-- Witness for C2 on the two-file `hello` tree with compression disabled. -/
theorem ingest_dedup_single_blob_witness :
    blobCount (ingestFiles ⟨false, true⟩ ([] ++ ("a.txt", helloBytes) :: [] ++ ("b.txt", helloBytes) :: [])
        emptyStore (NewManifest "t" 0)).1 (HashBytes helloBytes) = 1 ∧
    (ingestFiles ⟨false, true⟩ ([] ++ ("a.txt", helloBytes) :: [] ++ ("b.txt", helloBytes) :: [])
        emptyStore (NewManifest "t" 0)).2.files.map (fun e => (e.originalPath, e.hash)) =
      [] ++ ("a.txt", HashBytes helloBytes) :: ([] ++ ("b.txt", HashBytes helloBytes) :: []) :=
  ingest_dedup_single_blob ⟨false, true⟩ "t" 0 [] [] [] "a.txt" "b.txt" helloBytes rfl

/- ## The round-trip failure (claim C1)

With compression enabled, the representative blob of a content is compressed
only when `ShouldCompress` approves (for a 5-byte file it does not), but the
dedup-hit branch of `processFile` marks every later duplicate compressed
whenever global compression is enabled. Restore then feeds the raw stored
bytes to the gzip decoder, which rejects them, so the restore of a template
the tool itself created aborts with an error. -/

/-- The failing round-trip input: a tree with two files holding the same
5-byte content, ingested in full-content mode with compression enabled (the
default configuration of the make command). -/
def bugTree : List (String × List Nat) := [("a.txt", helloBytes), ("b.txt", helloBytes)]

set_option maxRecDepth 1000000 in
/-- C1: at the failing input, the ingest succeeds and its manifest validates,
the duplicate entry is marked compressed while the representative entry is
not (the blob was stored raw), and materializing the template fails instead
of reproducing the two files byte-identically. -/
theorem roundtrip_fails_on_stale_compressed_flag :
    ValidateManifest (ingestFiles ⟨false, false⟩ bugTree emptyStore (NewManifest "t" 0)).2 =
      Except.ok () ∧
    (ingestFiles ⟨false, false⟩ bugTree emptyStore (NewManifest "t" 0)).2.files.map
      (fun e => e.compressed) = [false, true] ∧
    restoreFiles (ingestFiles ⟨false, false⟩ bugTree emptyStore (NewManifest "t" 0)).1
      (ingestFiles ⟨false, false⟩ bugTree emptyStore (NewManifest "t" 0)).2.files = none :=
  ⟨rfl, rfl, rfl⟩

/- ## Round-trip with compression disabled

With compression disabled the stale-compressed-flag failure cannot arise, and
the round-trip property holds for every tree whose contents the hash does not
conflate. -/

/-- A successful association-list lookup finds one of the stored pairs. -/
theorem lookup_mem {l : List (String × List Nat)} {h : String} {v : List Nat}
    (hl : l.lookup h = some v) : (h, v) ∈ l := by
  induction l with
  | nil => cases hl
  | cons p t ih =>
      obtain ⟨k, w⟩ := p
      by_cases hk : h = k
      · subst hk
        simp only [List.lookup, beq_self_eq_true, Option.some.injEq] at hl
        subst hl
        exact List.mem_cons_self _ _
      · simp only [List.lookup, beq_eq_false_iff_ne.mpr hk] at hl
        exact List.mem_cons_of_mem _ (ih hl)

/-- Store soundness relative to a tree: every stored blob is the raw content
of some tree file, keyed by its content hash. -/
def StoreSound (st : Store) (ts : List (String × List Nat)) : Prop :=
  ∀ hv ∈ st.blobs, ∃ pc ∈ ts, hv.1 = HashBytes pc.2 ∧ hv.2 = pc.2

/-- With compression disabled, `processFile` on a tree file preserves store
soundness: it writes at most the raw content under its content hash. -/
theorem processFile_noComp_sound (st : Store) (m : Manifest) (p : String)
    (c : List Nat) (ts : List (String × List Nat)) (hmem : (p, c) ∈ ts)
    (hs : StoreSound st ts) :
    StoreSound (processFile ⟨false, true⟩ st m p c).1 ts := by
  unfold processFile
  by_cases h2 : st.FileExists (HashBytes c)
  · simpa [h2] using hs
  · simp only [Bool.not_eq_true] at h2
    simp only [h2, if_true, if_false, Bool.not_false, Bool.false_eq_true]
    intro hv hmemb
    simp only [Store.SaveFile, List.mem_append, List.mem_cons, List.not_mem_nil,
      or_false] at hmemb
    rcases hmemb with hold | hnew
    · exact hs hv hold
    · subst hnew
      exact ⟨(p, c), hmem, rfl, rfl⟩

/-- With compression disabled, the ingest loop preserves store soundness for
any batch of files drawn from the tree. -/
theorem ingest_noComp_sound (ts : List (String × List Nat)) :
    ∀ (l : List (String × List Nat)) (st : Store) (m : Manifest),
      (∀ pc ∈ l, pc ∈ ts) → StoreSound st ts →
      StoreSound (ingestFiles ⟨false, true⟩ l st m).1 ts := by
  intro l
  induction l with
  | nil => intro st m _ hs; exact hs
  | cons pc rest ih =>
      intro st m hsub hs
      refine ih _ _ (fun qc hqc => hsub qc (List.mem_cons_of_mem _ hqc)) ?_
      have := processFile_noComp_sound st m pc.1 pc.2 ts
        (by simpa using hsub pc (List.mem_cons_self _ _)) hs
      simpa using this

/-- With compression disabled, `processFile` appends the same entry in both
of its branches: content-bearing, uncompressed, stored size equal to the
original size. -/
theorem processFile_noComp_files (st : Store) (m : Manifest) (p : String) (c : List Nat) :
    (processFile ⟨false, true⟩ st m p c).2 =
      m.AddFile p (HashBytes c) true false c.length c.length := by
  unfold processFile
  by_cases h2 : st.FileExists (HashBytes c) <;> simp [h2]

/-- With compression disabled, the ingest loop appends exactly one raw entry
per tree file, in discovery order. -/
theorem ingest_noComp_files (l : List (String × List Nat)) :
    ∀ (st : Store) (m : Manifest),
      (ingestFiles ⟨false, true⟩ l st m).2.files =
        m.files ++ l.map (fun pc =>
          (⟨pc.1, HashBytes pc.2, true, false, pc.2.length, pc.2.length⟩ : FileEntry)) := by
  induction l with
  | nil => intro st m; simp [ingestFiles]
  | cons pc rest ih =>
      intro st m
      show (ingestFiles ⟨false, true⟩ rest _ _).2.files = _
      rw [ih]
      rw [processFile_noComp_files st m pc.1 pc.2]
      simp [Manifest.AddFile]

/-- Restoring the mapped entries of a tree succeeds and reproduces the tree,
provided the store returns the raw content of every file. -/
theorem restore_mapped (st : Store) (l : List (String × List Nat))
    (hload : ∀ pc ∈ l, st.LoadFile (HashBytes pc.2) = some pc.2) :
    restoreFiles st (l.map (fun pc =>
        (⟨pc.1, HashBytes pc.2, true, false, pc.2.length, pc.2.length⟩ : FileEntry))) =
      some l := by
  induction l with
  | nil => rfl
  | cons pc rest ih =>
      have hl := hload pc (List.mem_cons_self _ _)
      have hrest := ih (fun qc hqc => hload qc (List.mem_cons_of_mem _ hqc))
      simp [restoreFiles, restoreFile, Store.LoadFileWithDecompression, hl, hrest]

/-- Round-trip with compression disabled: a full-content ingest followed by a
restore reproduces the tree exactly — same relative paths in the same order,
byte-identical contents — provided the content hash does not conflate two
distinct contents of the tree. -/
theorem roundtrip_noCompression (ts : List (String × List Nat)) (name : String) (now : Nat)
    (hinj : ∀ pc ∈ ts, ∀ qc ∈ ts, HashBytes pc.2 = HashBytes qc.2 → pc.2 = qc.2) :
    restoreFiles (ingestFiles ⟨false, true⟩ ts emptyStore (NewManifest name now)).1
      (ingestFiles ⟨false, true⟩ ts emptyStore (NewManifest name now)).2.files = some ts := by
  rw [ingest_noComp_files ts emptyStore (NewManifest name now)]
  show restoreFiles _ ([] ++ _) = _
  rw [List.nil_append]
  apply restore_mapped
  intro pc hpc
  have hcnt := ingest_count_hit ⟨false, true⟩ rfl ts emptyStore (NewManifest name now)
    pc.1 pc.2 (by simpa using hpc)
  have hsome : (((ingestFiles ⟨false, true⟩ ts emptyStore (NewManifest name now)).1.blobs.lookup
      (HashBytes pc.2)).isSome) = true := by
    rw [lookup_isSome_iff_count]
    exact hcnt
  obtain ⟨v, hv⟩ := Option.isSome_iff_exists.mp hsome
  have hmemb := lookup_mem hv
  have hsound := ingest_noComp_sound ts ts emptyStore (NewManifest name now)
    (fun qc hqc => hqc) (fun hv2 hm => by simp [emptyStore] at hm)
  obtain ⟨qc, hqc, h1, h2⟩ := hsound _ hmemb
  have hceq : qc.2 = pc.2 := hinj qc hqc pc hpc (by rw [← h1])
  have hveq : v = pc.2 := by rw [show v = qc.2 from h2, hceq]
  unfold Store.LoadFile
  rw [hv, hveq]

end Tmpltr
